import Mathlib

/-!
# Verification of the OLX car-cover scraper (`olx_scrapper.py`)

Shallow embedding of the scraper's logic:

* the two regex heuristics `₹\s?[\d,]+` (price) and
  `(?:in|at|•)\s+([A-Z][A-Za-z .,-]{2,})` (location) as explicit scanners
  with Python `re.search` leftmost-match semantics;
* CPython 3.11 `urllib.parse.urljoin` specialised to the fixed base
  `"https://www.olx.in"` (scheme `https`, netloc `www.olx.in`, empty path);
* `extract_listings` over the list of anchors selected from the page
  (HTML parsing itself is abstracted: a `parse : String → List Anchor`
  argument stands for `BeautifulSoup` + the CSS selector union);
* the `scrape` pagination loop and `save_csv`.

Modelling notes:
* `\d` is modelled as the ASCII digits `0-9`; the source's Unicode-aware
  `\d` additionally matches non-ASCII decimal digits, which are outside
  the character repertoire modelled here.  `\s` and `str.strip()` use the
  whitespace set below.
* bs4 `Tag.__bool__` returns `True` unconditionally, so the `if parent:`
  tests in the source always succeed; the parent-bubbling loop is
  modelled by `walkUp`.
* the `ValueError` paths of `urllib.parse.urlsplit` (invalid IPv6
  netloc, NFKC netloc check) are outside the model.
-/

namespace Olx

/-! ## Character classes -/

/-- Unicode whitespace as matched by Python's `\s` (for `str` patterns) and
stripped by `str.strip()`, restricted to the standard set. -/
def pySpace (c : Char) : Bool :=
  c = ' ' || c = '\t' || c = '\n' || c = '\r' || c = '\x0b' || c = '\x0c' ||
  c = '\x1c' || c = '\x1d' || c = '\x1e' || c = '\x1f' ||
  c = '\x85' || c = '\xa0' || c = '\u1680' ||
  ('\u2000' <= c && c <= '\u200a') ||
  c = '\u2028' || c = '\u2029' || c = '\u202f' || c = '\u205f' || c = '\u3000'

/-- `\d`, modelled as ASCII decimal digits. -/
def pyDigit (c : Char) : Bool := c.isDigit

/-- The character class `[\d,]` of the price regex. -/
def digitOrComma (c : Char) : Bool := pyDigit c || c = ','

/-- The character class `[A-Za-z .,-]` of the location regex. -/
def locClassChar (c : Char) : Bool :=
  c.isUpper || c.isLower || c = ' ' || c = '.' || c = ',' || c = '-'

/-- `str.strip()` on a character list (strip `pySpace` from both ends). -/
def stripChars (l : List Char) : List Char :=
  ((l.dropWhile pySpace).reverse.dropWhile pySpace).reverse

/-! ## The price regex `₹\s?[\d,]+` (line 70 of the source) -/

/-- Match of `₹\s?[\d,]+` anchored at the start of the list: `₹`, an optional
single whitespace character, then a maximal nonempty run of digits/commas.
Returns the full matched text (`m.group(0)`). -/
def priceMatchAt : List Char → Option (List Char)
  | [] => none
  | c :: rest =>
    if c = '₹' then
      match rest with
      | [] => none
      | d :: rest2 =>
        if pySpace d then
          let run := rest2.takeWhile digitOrComma
          if run = [] then none else some (c :: d :: run)
        else
          let run := (d :: rest2).takeWhile digitOrComma
          if run = [] then none else some (c :: run)
    else none

/-- `re.search` leftmost-match scan: try the pattern anchored at each start
position from the left. -/
def reSearch (matchAt : List Char → Option (List Char)) :
    List Char → Option (List Char)
  | [] => none
  | c :: rest =>
    match matchAt (c :: rest) with
    | some m => some m
    | none => reSearch matchAt rest

/-- The price heuristic: `m.group(0)` of `re.search(r"₹\s?[\d,]+", text)`. -/
def price_search (s : String) : Option String :=
  (reSearch priceMatchAt s.data).map String.mk

/-! ## The location regex `(?:in|at|•)\s+([A-Z][A-Za-z .,-]{2,})`
(line 75 of the source) -/

/-- The connector alternation `(?:in|at|•)`; returns the remainder after the
connector.  The three branches start with distinct characters, so at most one
applies at a given position. -/
def connectorAt : List Char → Option (List Char)
  | 'i' :: 'n' :: rest => some rest
  | 'a' :: 't' :: rest => some rest
  | '•' :: rest => some rest
  | _ => none

/-- `\s+([A-Z][A-Za-z .,-]{2,})` after the connector: a nonempty whitespace
run, then the capture group (an ASCII capital, then a maximal run of class
characters of length at least 2).  Whitespace and `[A-Z]` are disjoint, so
the greedy `\s+` needs no backtracking. -/
def locTail (rest : List Char) : Option (List Char) :=
  let ws := rest.takeWhile pySpace
  if ws = [] then none
  else
    match rest.drop ws.length with
    | [] => none
    | c :: tl =>
      if c.isUpper then
        let run := tl.takeWhile locClassChar
        if run.length < 2 then none else some (c :: run)
      else none

/-- Match of the location regex anchored at the start of the list; returns
the capture group `m.group(1)` (not yet stripped). -/
def locMatchAt (l : List Char) : Option (List Char) :=
  match connectorAt l with
  | none => none
  | some rest => locTail rest

/-- The location heuristic: `m2.group(1).strip()` of the location regex. -/
def location_search (s : String) : Option String :=
  (reSearch locMatchAt s.data).map (fun g => String.mk (stripChars g))

/-! ## `urllib.parse.urljoin` (CPython 3.11), specialised to the base
`"https://www.olx.in"`, whose parse is scheme `"https"`, netloc
`"www.olx.in"`, empty path/params/query/fragment. -/

/-- `scheme_chars` of `urllib.parse`. -/
def schemeChar (c : Char) : Bool :=
  c.isAlpha || c.isDigit || c = '+' || c = '-' || c = '.'

/-- `_WHATWG_C0_CONTROL_OR_SPACE`: C0 controls and the space character. -/
def isC0ControlOrSpace (c : Char) : Bool := c.toNat ≤ 0x20

/-- Removal of `_UNSAFE_URL_BYTES_TO_REMOVE` (`\t`, `\r`, `\n`). -/
def removeUnsafeBytes (l : List Char) : List Char :=
  l.filter (fun c => !(c = '\t' || c = '\r' || c = '\n'))

/-- `uses_relative` of `urllib.parse`. -/
def usesRelative : List String :=
  ["", "ftp", "http", "gopher", "nntp", "imap", "wais", "file", "https",
   "shttp", "mms", "prospero", "rtsp", "rtsps", "rtspu", "sftp", "svn",
   "svn+ssh", "ws", "wss"]

/-- `uses_netloc` of `urllib.parse`. -/
def usesNetloc : List String :=
  ["", "ftp", "http", "gopher", "nntp", "telnet", "imap", "wais", "file",
   "mms", "https", "shttp", "snews", "prospero", "rtsp", "rtsps", "rtspu",
   "rsync", "svn", "svn+ssh", "sftp", "nfs", "git", "git+ssh", "ws", "wss"]

/-- `uses_params` of `urllib.parse`. -/
def usesParams : List String :=
  ["", "ftp", "hdl", "prospero", "http", "imap", "https", "shttp", "rtsp",
   "rtsps", "rtspu", "sip", "sips", "mms", "sftp", "tel"]

/-- Split at the first occurrence of `sep` (the separator is dropped);
`none` when `sep` does not occur. -/
def splitAtFirst (sep : Char) : List Char → Option (List Char × List Char)
  | [] => none
  | c :: cs =>
    if c = sep then some ([], cs)
    else (splitAtFirst sep cs).map (fun p => (c :: p.1, p.2))

/-- Split at the last `'/'`: `some (before, after)` where `after` contains
no `'/'`; `none` when there is no `'/'`. -/
def splitAtLastSlash : List Char → Option (List Char × List Char)
  | [] => none
  | c :: cs =>
    match splitAtLastSlash cs with
    | some (a, b) => some (c :: a, b)
    | none => if c = '/' then some ([], cs) else none

/-- Scheme extraction of `urlsplit`: the prefix before the first `':'` is a
scheme when it is nonempty, starts with an ASCII letter and consists of
`scheme_chars` only.  Returns the lowercased scheme and the remainder. -/
def schemeSplitAux : List Char → Option (List Char × List Char)
  | [] => none
  | ':' :: rest => some ([], rest)
  | c :: rest =>
    if schemeChar c then (schemeSplitAux rest).map (fun p => (c :: p.1, p.2))
    else none

/-- See `schemeSplitAux`; checks the leading ASCII-letter condition. -/
def splitScheme (l : List Char) : Option (List Char × List Char) :=
  match l with
  | [] => none
  | c :: rest =>
    if c.isAlpha then
      match schemeSplitAux rest with
      | some (p, r) => some ((c :: p).map Char.toLower, r)
      | none => none
    else none

/-- `_splitnetloc`: the netloc extends to the first of `'/'`, `'?'`, `'#'`. -/
def splitNetloc : List Char → List Char × List Char
  | [] => ([], [])
  | c :: cs =>
    if c = '/' || c = '?' || c = '#' then ([], c :: cs)
    else
      let p := splitNetloc cs
      (c :: p.1, p.2)

/-- `_splitparams`: split `path;params` at the first `';'` occurring after
the last `'/'` (or anywhere when there is no `'/'`). -/
def splitParamsAux (l : List Char) : List Char × List Char :=
  match splitAtLastSlash l with
  | some (a, b) =>
    match splitAtFirst ';' b with
    | some (b1, b2) => (a ++ '/' :: b1, b2)
    | none => (l, [])
  | none =>
    match splitAtFirst ';' l with
    | some (p, q) => (p, q)
    | none => (l, [])

/-- The components produced by `urlparse`. -/
structure UrlParts where
  scheme : List Char
  netloc : List Char
  path : List Char
  params : List Char
  query : List Char
  fragment : List Char
deriving Repr, DecidableEq

/-- `urlparse(url, 'https', allow_fragments=True)`: WHATWG lstrip, unsafe
byte removal, then scheme / netloc / fragment / query / params splits.
(The `ValueError` paths for malformed IPv6 netlocs are not modelled.) -/
def urlparseHttps (url0 : List Char) : UrlParts :=
  let url1 := removeUnsafeBytes (url0.dropWhile isC0ControlOrSpace)
  let sr := match splitScheme url1 with
    | some (s, r) => (s, r)
    | none => ("https".data, url1)
  let scheme := sr.1
  let nr := match sr.2 with
    | '/' :: '/' :: rest => splitNetloc rest
    | other => ([], other)
  let netloc := nr.1
  let fr := match splitAtFirst '#' nr.2 with
    | some (u, f) => (u, f)
    | none => (nr.2, [])
  let qr := match splitAtFirst '?' fr.1 with
    | some (u, q) => (u, q)
    | none => (fr.1, [])
  let pp :=
    if usesParams.contains (String.mk scheme) && qr.1.contains ';' then
      splitParamsAux qr.1
    else (qr.1, [])
  ⟨scheme, netloc, pp.1, pp.2, qr.2, fr.2⟩

/-- `urlunparse` + `urlunsplit` for the components arising in `urljoin`. -/
def urlunparseHttps (p : UrlParts) : List Char :=
  let url := if p.params ≠ [] then p.path ++ ';' :: p.params else p.path
  let url :=
    if p.netloc ≠ [] ∨
        (p.scheme ≠ [] ∧ usesNetloc.contains (String.mk p.scheme) ∧
          url.take 2 ≠ ['/', '/']) then
      let url := if url ≠ [] ∧ url.head? ≠ some '/' then '/' :: url else url
      '/' :: '/' :: (p.netloc ++ url)
    else url
  let url := if p.scheme ≠ [] then p.scheme ++ ':' :: url else url
  let url := if p.query ≠ [] then url ++ '?' :: p.query else url
  if p.fragment ≠ [] then url ++ '#' :: p.fragment else url

/-- `"".split('/')` style splitting: always at least one (possibly empty)
segment. -/
def splitSlash : List Char → List (List Char)
  | [] => [[]]
  | c :: cs =>
    if c = '/' then [] :: splitSlash cs
    else
      match splitSlash cs with
      | [] => [[c]]
      | s :: ss => (c :: s) :: ss

/-- Helper of `dropEmptyMiddle`: drop empty segments, keeping the last. -/
def dropEmptyKeepLast : List (List Char) → List (List Char)
  | [] => []
  | [s] => [s]
  | s :: rest =>
    if s = [] then dropEmptyKeepLast rest else s :: dropEmptyKeepLast rest

/-- `segments[1:-1] = filter(None, segments[1:-1])`: drop empty segments
except in the first and last position. -/
def dropEmptyMiddle (segs : List (List Char)) : List (List Char) :=
  match segs with
  | [] => []
  | s :: rest => s :: dropEmptyKeepLast rest

/-- One step of the `'..'`/`'.'` segment resolution loop. -/
def resolveStep (acc : List (List Char)) (seg : List Char) : List (List Char) :=
  if seg = "..".data then acc.dropLast
  else if seg = ".".data then acc
  else acc ++ [seg]

/-- The segment-resolution part of `urljoin` against the empty base path:
`base_parts = bpath.split('/')` is `[""]` and survives the trailing-segment
trim, so the base contributes one empty leading segment when the path is
relative. -/
def resolveRelativePath (path : List Char) : List Char :=
  let segments :=
    if path.head? = some '/' then splitSlash path
    else dropEmptyMiddle ([] :: splitSlash path)
  let resolved := segments.foldl resolveStep []
  let resolved :=
    if segments.getLast? = some ".".data ∨ segments.getLast? = some "..".data
    then resolved ++ [[]]
    else resolved
  let newPath := List.intercalate ['/'] resolved
  if newPath = [] then ['/'] else newPath

/-- The base URL of the scraper (module constant `BASE_URL`). -/
def BASE_URL : String := "https://www.olx.in/items/q-car-cover"

/-- Default output path (module constant `OUTPUT_CSV`). -/
def OUTPUT_CSV : String := "olx_car_covers.csv"

/-- `urljoin("https://www.olx.in", url)` for CPython 3.11.  The base parses
to scheme `"https"`, netloc `"www.olx.in"` and empty path, params, query and
fragment, which are inlined below. -/
def urljoinOlx (url : String) : String :=
  if url = "" then "https://www.olx.in"
  else
    let u := urlparseHttps url.data
    -- `if scheme != bscheme or scheme not in uses_relative: return url`
    if String.mk u.scheme ≠ "https" ∨ ¬ usesRelative.contains (String.mk u.scheme) then
      url
    -- `https` is in `uses_netloc`:
    else if u.netloc ≠ [] then
      String.mk (urlunparseHttps u)
    else
      let netloc := "www.olx.in".data
      if u.path = [] ∧ u.params = [] then
        -- path and params are replaced by the (empty) base path and params;
        -- an empty query is replaced by the (empty) base query
        String.mk (urlunparseHttps ⟨u.scheme, netloc, [], [], u.query, u.fragment⟩)
      else
        String.mk (urlunparseHttps
          ⟨u.scheme, netloc, resolveRelativePath u.path, u.params, u.query,
           u.fragment⟩)

/-! ## Extractor (`extract_listings`)

HTML parsing is abstracted: an `Anchor` carries the data the extractor
reads from one selected anchor tag — its `href` attribute (`a.get("href")`,
`none` when the attribute is missing), its own visible text
(`a.get_text(" ", strip=True)`) and the visible texts of its ancestor
elements, nearest first (`get_text` of parent, grandparent, ...). -/

structure Anchor where
  href : Option String
  text : String
  ancestorTexts : List String
deriving Repr, DecidableEq

/-- One listing record (the dict literal of lines 79-85). -/
structure Record where
  title : Option String
  url : String
  price_guess : Option String
  location_guess : Option String
  snippet : Option String
deriving Repr, DecidableEq

/-- The parent-bubbling loop (lines 57-63): starting from the anchor,
step to the parent up to `n` times, stopping early when there is no
further parent.  bs4 tags are always truthy, so only `parent.parent`
being `None` stops the walk. -/
def walkUp : Nat → String → List String → String
  | 0, cur, _ => cur
  | _ + 1, cur, [] => cur
  | n + 1, _, t :: ts => walkUp n t ts

/-- The context text used for snippet, price and location: the text of the
element reached by walking up through at most 3 parent links. -/
def contextText (a : Anchor) : String := walkUp 3 a.text a.ancestorTexts

/-- Construction of the record for one anchor (lines 49-85, given the
already-normalised absolute `url`). -/
def mkRecord (url : String) (a : Anchor) : Record :=
  let text := contextText a
  { title := if a.text = "" then none else some a.text
    url := url
    price_guess := price_search text
    location_guess := location_search text
    snippet := if text = "" then none else some (String.mk (text.data.take 300)) }

/-- The anchor loop of `extract_listings` with its intra-page seen-set:
anchors without an `href` (or with an empty one) are skipped, the `href`
is resolved against the base origin, and a URL already seen on this page
is skipped (first occurrence wins). -/
def extractGo : List Anchor → List String → List Record
  | [], _ => []
  | a :: rest, seen =>
    match a.href with
    | none => extractGo rest seen
    | some href =>
      if href = "" then extractGo rest seen
      else
        let url := urljoinOlx href
        if url ∈ seen then extractGo rest seen
        else mkRecord url a :: extractGo rest (url :: seen)

/-- `extract_listings`, as a function of the selected anchor list. -/
def extract_listings (cards : List Anchor) : List Record :=
  extractGo cards []

/-! ## Orchestrator (`scrape`) and serializer (`save_csv`) -/

/-- `next_page_url` (lines 91-94). -/
def next_page_url (current_page : Nat) : String :=
  if current_page ≤ 1 then BASE_URL
  else BASE_URL ++ "?page=" ++ toString current_page

/-- `fetch_page` (lines 19-29) as a function of the HTTP outcome for the
requested URL: `none` models a transport-level exception, `some (status,
body)` a response.  Only a 200 status yields the body; any other status
(and any exception) yields `None`. -/
def fetch_page (response : Option (Nat × String)) : Option String :=
  match response with
  | none => none
  | some (status, body) => if status = 200 then some body else none

/-- Console lines printed by the `scrape` loop. -/
inductive LogEvent where
  | fetching (page : Nat) (url : String)
  | noHtml
  | noNewRows
deriving Repr, DecidableEq

/-- Result of a `scrape` run: the returned rows and the printed log. -/
structure ScrapeOut where
  rows : List Record
  logs : List LogEvent
deriving Repr, DecidableEq

/-- The pagination loop of `scrape` (lines 101-118) over an explicit list
of page numbers, carrying the accumulated rows and the cross-page seen
set.  `response` maps a URL to its HTTP outcome; `parse` stands for
BeautifulSoup plus the CSS selector union (`soup.select(...)`), mapping a
page body to its anchor list.  The `if not html` test treats a missing
body and an empty body alike. -/
def scrapeGo (response : String → Option (Nat × String))
    (parse : String → List Anchor) :
    List Nat → List Record → List String → ScrapeOut
  | [], acc, _ => ⟨acc, []⟩
  | p :: ps, acc, seen =>
    let url := next_page_url p
    match fetch_page (response url) with
    | none => ⟨acc, [.fetching p url, .noHtml]⟩
    | some html =>
      if html = "" then ⟨acc, [.fetching p url, .noHtml]⟩
      else
        let rows := extract_listings (parse html)
        let new_rows := rows.filter (fun r => decide (r.url ∉ seen))
        if new_rows = [] then ⟨acc, [.fetching p url, .noNewRows]⟩
        else
          let out := scrapeGo response parse ps (acc ++ new_rows)
            (seen ++ new_rows.map (fun r => r.url))
          ⟨out.rows, .fetching p url :: out.logs⟩

/-- `scrape(max_pages)`: pages `1 .. max_pages`, empty initial state. -/
def scrapeFull (response : String → Option (Nat × String))
    (parse : String → List Anchor) (max_pages : Nat) : ScrapeOut :=
  scrapeGo response parse (List.range' 1 max_pages) [] []

/-- The record list returned by `scrape`. -/
def scrape (response : String → Option (Nat × String))
    (parse : String → List Anchor) (max_pages : Nat) : List Record :=
  (scrapeFull response parse max_pages).rows

/-- Console line printed by `save_csv`. -/
inductive SaveLog where
  | noRows
  | saved (count : Nat) (path : String)
deriving Repr, DecidableEq

/-- Effect of `save_csv`: either no write at all, or one write of the row
list to the path (the byte-level CSV encoding is not modelled; no claim
depends on it). -/
structure SaveEffect where
  write : Option (String × List Record)
  log : SaveLog
deriving Repr, DecidableEq

/-- `save_csv` (lines 122-131): an empty row list logs a notice and
performs no file write; otherwise the rows are written to `path`. -/
def save_csv (rows : List Record) (path : String) : SaveEffect :=
  if rows = [] then ⟨none, .noRows⟩
  else ⟨some (path, rows), .saved rows.length path⟩

/-! ## Specification-side and ghost definitions -/

/-- Ghost stream: the records `extract_listings` constructs, one per anchor
with a nonempty `href`, before any deduplication. -/
def rawRecords (cards : List Anchor) : List Record :=
  cards.filterMap (fun a =>
    match a.href with
    | none => none
    | some h => if h = "" then none else some (mkRecord (urljoinOlx h) a))

/-- First-occurrence-wins deduplication by `url` relative to an initial
seen set: keeps a record iff its `url` is not in `seen` and has not
occurred earlier in the list. -/
def dedupByUrl (seen : List String) : List Record → List Record
  | [] => []
  | r :: rs =>
    if r.url ∈ seen then dedupByUrl seen rs
    else r :: dedupByUrl (r.url :: seen) rs

/-- Ghost stream for a whole run: the concatenation of the per-page raw
record streams over exactly the pages the `scrape` loop processes (same
control flow as `scrapeGo`). -/
def producedGo (response : String → Option (Nat × String))
    (parse : String → List Anchor) :
    List Nat → List String → List Record
  | [], _ => []
  | p :: ps, seen =>
    match fetch_page (response (next_page_url p)) with
    | none => []
    | some html =>
      if html = "" then []
      else
        let raw := rawRecords (parse html)
        let rows := extract_listings (parse html)
        let new_rows := rows.filter (fun r => decide (r.url ∉ seen))
        if new_rows = [] then raw
        else raw ++ producedGo response parse ps
          (seen ++ new_rows.map (fun r => r.url))

/-- Ghost stream for `scrape(max_pages)`. -/
def producedFull (response : String → Option (Nat × String))
    (parse : String → List Anchor) (max_pages : Nat) : List Record :=
  producedGo response parse (List.range' 1 max_pages) []

/-- A URL is (syntactically) absolute when it starts with a scheme. -/
def isAbsoluteUrl (u : String) : Bool := (splitScheme u.data).isSome

/-- Full-string shape of a match of the source's price regex: `₹`, an
optional single whitespace character, then a nonempty run of digits and
commas. -/
def codePriceShape (p : String) : Bool :=
  match p.data with
  | '₹' :: rest =>
    let body := match rest with
      | d :: tl => if pySpace d then tl else rest
      | [] => rest
    !body.isEmpty && body.all digitOrComma
  | _ => false

/-- Shape of the spec's price pattern (claim wording): `₹`, an optional
single whitespace character, then digit groups with optional single-comma
separators (`\d+(,\d+)*`). -/
def specPriceShape (p : String) : Bool :=
  match p.data with
  | '₹' :: rest =>
    let body := match rest with
      | d :: tl => if pySpace d then tl else rest
      | [] => rest
    let groups := body.splitOn ','
    !groups.isEmpty && groups.all (fun g => !g.isEmpty && g.all pyDigit)
  | _ => false

/-- Shape of the location capture group: an ASCII capital followed by a
run of `[A-Za-z .,-]` characters of length at least 2. -/
def locGroupShape (g : List Char) : Bool :=
  match g with
  | c :: run => c.isUpper && 2 ≤ run.length && run.all locClassChar
  | [] => false

/-- Python's `\w` (word character), ASCII part, for word boundaries. -/
def wordChar (c : Char) : Bool := c.isAlpha || c.isDigit || c = '_'

/-- Spec-side location matcher at a position: like `locMatchAt`, but the
connectors `in` and `at` must occur as standalone words — the preceding
character (if any) must not be a word character.  (The claim reads the
connector as "the word `in`, `at`, or a bullet character `•`".) -/
def specLocMatchAt (prev : Option Char) (l : List Char) : Option (List Char) :=
  match l with
  | 'i' :: 'n' :: rest =>
    match prev with
    | some c => if wordChar c then none else locTail rest
    | none => locTail rest
  | 'a' :: 't' :: rest =>
    match prev with
    | some c => if wordChar c then none else locTail rest
    | none => locTail rest
  | '•' :: rest => locTail rest
  | _ => none

/-- Spec-side leftmost scan for the word-bounded location pattern. -/
def specSearchLoc : Option Char → List Char → Option (List Char)
  | _, [] => none
  | prev, c :: rest =>
    match specLocMatchAt prev (c :: rest) with
    | some g => some g
    | none => specSearchLoc (some c) rest

/-- Spec-side location guess: first word-bounded match, capture stripped. -/
def specLocationSearch (s : String) : Option String :=
  (specSearchLoc none s.data).map (fun g => String.mk (stripChars g))

/-- One page step of the `scrape` loop as a state transformer (used to
phrase "the records accumulated from pages `1 .. p-1`"): `none` when the
loop would stop at this page, otherwise the updated accumulator and seen
set. -/
def stepPage (response : String → Option (Nat × String))
    (parse : String → List Anchor)
    (st : List Record × List String) (p : Nat) :
    Option (List Record × List String) :=
  match fetch_page (response (next_page_url p)) with
  | none => none
  | some html =>
    if html = "" then none
    else
      let rows := extract_listings (parse html)
      let new_rows := rows.filter (fun r => decide (r.url ∉ st.2))
      if new_rows = [] then none
      else some (st.1 ++ new_rows, st.2 ++ new_rows.map (fun r => r.url))

/-! ## Concrete fixtures (used by witnesses and counterexamples) -/

/-- A well-behaved listing anchor. -/
def anchorMumbai : Anchor :=
  ⟨some "/item/m", "Car cover deluxe",
   ["inner", "Used car cover for sale in Mumbai ₹ 1,200"]⟩

/-- A second anchor with the same target URL. -/
def anchorMumbaiDup : Anchor := ⟨some "/item/m", "dup", ["x"]⟩

/-- An anchor whose `href` carries a foreign scheme behind a leading
space. -/
def anchorMailto : Anchor := ⟨some " mailto:x", "t", ["ctx"]⟩

/-- An anchor whose context text contains `₹,,` and no digits after `₹`. -/
def anchorCommas : Anchor := ⟨some "/item/c3", "t", ["z ₹,, w"]⟩

/-- An anchor whose context text contains `in` only inside the word
`Coin`. -/
def anchorCoin : Anchor := ⟨some "/item/c4", "t", ["Coin Alley market"]⟩

/-- An anchor with no ancestors but a rich own text. -/
def anchorOrphan : Anchor := ⟨some "/item/c5", "Nice cover in Pune ₹ 450", []⟩

/-- An HTTP oracle whose page 1 has one listing and whose later pages
fail with a transport fault. -/
def responseOnePage : String → Option (Nat × String) :=
  fun u => if u = next_page_url 1 then some (200, "P1") else none

/-- An HTTP oracle that returns 404 everywhere. -/
def response404 : String → Option (Nat × String) :=
  fun _ => some (404, "not found")

/-- An HTTP oracle returning status 200 with an empty body everywhere. -/
def responseEmptyBody : String → Option (Nat × String) :=
  fun _ => some (200, "")

/-- An HTTP oracle failing with a transport fault everywhere. -/
def responseFault : String → Option (Nat × String) := fun _ => none

/-- A parse fixture: page body `"P1"` contains the Mumbai anchor twice. -/
def parseOnePage : String → List Anchor :=
  fun body => if body = "P1" then [anchorMumbai, anchorMumbaiDup] else []

/-! # Theorems -/

/-! ### Record construction -/

@[simp] theorem mkRecord_url (u : String) (a : Anchor) :
    (mkRecord u a).url = u := rfl

@[simp] theorem mkRecord_title (u : String) (a : Anchor) :
    (mkRecord u a).title = (if a.text = "" then none else some a.text) := rfl

@[simp] theorem mkRecord_price (u : String) (a : Anchor) :
    (mkRecord u a).price_guess = price_search (contextText a) := rfl

@[simp] theorem mkRecord_location (u : String) (a : Anchor) :
    (mkRecord u a).location_guess = location_search (contextText a) := rfl

@[simp] theorem mkRecord_snippet (u : String) (a : Anchor) :
    (mkRecord u a).snippet =
      (if contextText a = "" then none
       else some (String.mk ((contextText a).data.take 300))) := rfl

/-! ### Deduplication structure (claim C1 machinery) -/

theorem dedupByUrl_congr : ∀ (l : List Record) {s1 s2 : List String},
    (∀ u, u ∈ s1 ↔ u ∈ s2) → dedupByUrl s1 l = dedupByUrl s2 l
  | [], _, _, _ => rfl
  | r :: rs, s1, s2, h => by
    by_cases hm : r.url ∈ s1
    · rw [dedupByUrl, dedupByUrl, if_pos hm, if_pos ((h r.url).mp hm)]
      exact dedupByUrl_congr rs h
    · rw [dedupByUrl, dedupByUrl, if_neg hm, if_neg (fun hx => hm ((h _).mpr hx))]
      exact congrArg _ (dedupByUrl_congr rs (fun u => by
        simp only [List.mem_cons, h u]))

theorem extractGo_eq_dedup : ∀ (cards : List Anchor) (seen : List String),
    extractGo cards seen = dedupByUrl seen (rawRecords cards)
  | [], _ => rfl
  | a :: rest, seen => by
    cases ha : a.href with
    | none =>
      simp only [extractGo, ha, rawRecords, List.filterMap_cons]
      exact extractGo_eq_dedup rest seen
    | some h =>
      by_cases hh : h = ""
      · subst hh
        simp only [extractGo, ha, rawRecords, List.filterMap_cons, if_pos rfl]
        exact extractGo_eq_dedup rest seen
      · simp only [extractGo, ha, rawRecords, List.filterMap_cons, if_neg hh]
        by_cases hm : urljoinOlx h ∈ seen
        · rw [if_pos hm, dedupByUrl, mkRecord_url, if_pos hm]
          exact extractGo_eq_dedup rest seen
        · rw [if_neg hm, dedupByUrl, mkRecord_url, if_neg hm]
          exact congrArg _ (extractGo_eq_dedup rest _)

theorem dedupByUrl_append : ∀ (xs ys : List Record) (seen : List String),
    dedupByUrl seen (xs ++ ys) =
      dedupByUrl seen xs ++
        dedupByUrl ((dedupByUrl seen xs).map (fun r => r.url) ++ seen) ys
  | [], ys, seen => by simp [dedupByUrl]
  | r :: xs, ys, seen => by
    by_cases hm : r.url ∈ seen
    · rw [List.cons_append, dedupByUrl, if_pos hm, dedupByUrl, if_pos hm]
      exact dedupByUrl_append xs ys seen
    · rw [List.cons_append, dedupByUrl, if_neg hm, dedupByUrl, if_neg hm,
        dedupByUrl_append xs ys (r.url :: seen), List.map_cons, List.cons_append,
        List.cons_append]
      exact congrArg _ (congrArg _ (dedupByUrl_congr ys (fun u => by
        simp only [List.mem_append, List.mem_cons]
        tauto)))

theorem filter_dedupByUrl : ∀ (l : List Record) (inner outer : List String),
    (dedupByUrl inner l).filter (fun r => decide (r.url ∉ outer)) =
      dedupByUrl (inner ++ outer) l
  | [], _, _ => rfl
  | r :: rs, inner, outer => by
    by_cases hin : r.url ∈ inner
    · rw [dedupByUrl, if_pos hin, dedupByUrl,
        if_pos (List.mem_append.mpr (Or.inl hin))]
      exact filter_dedupByUrl rs inner outer
    · rw [dedupByUrl, if_neg hin]
      by_cases hout : r.url ∈ outer
      · rw [List.filter_cons_of_neg (by simpa using hout), dedupByUrl,
          if_pos (List.mem_append.mpr (Or.inr hout)),
          filter_dedupByUrl rs (r.url :: inner) outer]
        exact dedupByUrl_congr rs (fun u => by
          simp only [List.mem_append, List.mem_cons]
          constructor
          · rintro ((rfl | h) | h)
            · exact Or.inr hout
            · exact Or.inl h
            · exact Or.inr h
          · rintro (h | h)
            · exact Or.inl (Or.inr h)
            · exact Or.inr h)
      · rw [List.filter_cons_of_pos (by simpa using hout), dedupByUrl,
          if_neg (fun hx => (List.mem_append.mp hx).elim hin hout),
          filter_dedupByUrl rs (r.url :: inner) outer, List.cons_append]

theorem mem_dedupByUrl_not_seen : ∀ {l : List Record} {seen : List String}
    {r : Record}, r ∈ dedupByUrl seen l → r.url ∉ seen := by
  intro l
  induction l with
  | nil => intro seen r h; cases h
  | cons x xs ih =>
    intro seen r h
    by_cases hm : x.url ∈ seen
    · rw [dedupByUrl, if_pos hm] at h
      exact ih h
    · rw [dedupByUrl, if_neg hm] at h
      rcases List.mem_cons.mp h with rfl | h2
      · exact hm
      · exact fun hc => ih h2 (List.mem_cons_of_mem _ hc)

theorem mem_dedupByUrl : ∀ {l : List Record} {seen : List String} {r : Record},
    r ∈ dedupByUrl seen l → r ∈ l := by
  intro l
  induction l with
  | nil => intro seen r h; cases h
  | cons x xs ih =>
    intro seen r h
    by_cases hm : x.url ∈ seen
    · rw [dedupByUrl, if_pos hm] at h
      exact List.mem_cons_of_mem _ (ih h)
    · rw [dedupByUrl, if_neg hm] at h
      rcases List.mem_cons.mp h with rfl | h2
      · exact List.mem_cons_self _ _
      · exact List.mem_cons_of_mem _ (ih h2)

theorem dedupByUrl_urls_nodup : ∀ (l : List Record) (seen : List String),
    ((dedupByUrl seen l).map (fun r => r.url)).Nodup
  | [], _ => List.nodup_nil
  | r :: rs, seen => by
    by_cases hm : r.url ∈ seen
    · rw [dedupByUrl, if_pos hm]
      exact dedupByUrl_urls_nodup rs seen
    · rw [dedupByUrl, if_neg hm, List.map_cons, List.nodup_cons]
      refine ⟨fun hc => ?_, dedupByUrl_urls_nodup rs (r.url :: seen)⟩
      rcases List.mem_map.mp hc with ⟨r2, hr2, hurl⟩
      exact mem_dedupByUrl_not_seen hr2 (hurl ▸ List.mem_cons_self _ _)

theorem scrapeGo_rows_eq (response : String → Option (Nat × String))
    (parse : String → List Anchor) :
    ∀ (ps : List Nat) (acc : List Record) (seen : List String),
      (scrapeGo response parse ps acc seen).rows =
        acc ++ dedupByUrl seen (producedGo response parse ps seen)
  | [], acc, seen => by simp [scrapeGo, producedGo, dedupByUrl]
  | p :: ps, acc, seen => by
    cases hf : fetch_page (response (next_page_url p)) with
    | none => simp [scrapeGo, producedGo, hf, dedupByUrl]
    | some html =>
      by_cases hh : html = ""
      · subst hh
        simp [scrapeGo, producedGo, hf, dedupByUrl]
      · have hfilter : (extract_listings (parse html)).filter
            (fun r => decide (r.url ∉ seen)) =
            dedupByUrl seen (rawRecords (parse html)) := by
          rw [extract_listings, extractGo_eq_dedup, filter_dedupByUrl,
            List.nil_append]
        simp only [scrapeGo, producedGo, hf, if_neg hh]
        by_cases hnew : (extract_listings (parse html)).filter
            (fun r => decide (r.url ∉ seen)) = []
        · rw [if_pos hnew, if_pos hnew, ← hfilter, hnew, List.append_nil]
        · rw [if_neg hnew, if_neg hnew]
          show (scrapeGo response parse ps _ _).rows = _
          rw [scrapeGo_rows_eq response parse ps _ _,
            dedupByUrl_append, ← hfilter, List.append_assoc]
          exact congrArg _ (congrArg _ (dedupByUrl_congr _ (fun u => by
            simp only [List.mem_append]
            tauto)))

/-- Provenance: every record of the extraction loop comes from an anchor of
the page with a nonempty `href`, via `mkRecord` on the resolved URL. -/
theorem mem_extractGo : ∀ {cards : List Anchor} {seen : List String}
    {r : Record}, r ∈ extractGo cards seen →
    ∃ a ∈ cards, ∃ h, a.href = some h ∧ h ≠ "" ∧ r = mkRecord (urljoinOlx h) a := by
  intro cards
  induction cards with
  | nil => intro seen r h; cases h
  | cons a rest ih =>
    intro seen r hr
    have step : ∀ {seen2 : List String}, r ∈ extractGo rest seen2 →
        ∃ a2 ∈ a :: rest, ∃ h, a2.href = some h ∧ h ≠ "" ∧
          r = mkRecord (urljoinOlx h) a2 := by
      intro seen2 hmem
      obtain ⟨a2, ha2, hrest⟩ := ih hmem
      exact ⟨a2, List.mem_cons_of_mem _ ha2, hrest⟩
    cases ha : a.href with
    | none =>
      simp only [extractGo, ha] at hr
      exact step hr
    | some h =>
      by_cases hh : h = ""
      · subst hh
        simp only [extractGo, ha, ite_true] at hr
        exact step hr
      · simp only [extractGo, ha, if_neg hh] at hr
        by_cases hm : urljoinOlx h ∈ seen
        · rw [if_pos hm] at hr
          exact step hr
        · rw [if_neg hm] at hr
          rcases List.mem_cons.mp hr with rfl | h2
          · exact ⟨a, List.mem_cons_self _ _, h, ha, hh, rfl⟩
          · exact step h2

/-- Provenance through `extract_listings`. -/
theorem mem_extract_listings {cards : List Anchor} {r : Record}
    (hr : r ∈ extract_listings cards) :
    ∃ a ∈ cards, ∃ h, a.href = some h ∧ h ≠ "" ∧ r = mkRecord (urljoinOlx h) a :=
  mem_extractGo hr

/-- Provenance for the raw (pre-dedup) record stream of one page. -/
theorem mem_rawRecords {cards : List Anchor} {r : Record}
    (hr : r ∈ rawRecords cards) :
    ∃ a ∈ cards, ∃ h, a.href = some h ∧ h ≠ "" ∧ r = mkRecord (urljoinOlx h) a := by
  obtain ⟨a, ha, hfa⟩ := List.mem_filterMap.mp hr
  rcases hhref : a.href with _ | h
  · simp only [hhref] at hfa
    cases hfa
  · simp only [hhref] at hfa
    by_cases hh : h = ""
    · rw [if_pos hh] at hfa
      cases hfa
    · rw [if_neg hh] at hfa
      exact ⟨a, ha, h, hhref, hh, (Option.some_inj.mp hfa).symm⟩

/-- Provenance through the whole-run ghost stream: every produced record is
built by `mkRecord` from some page's anchor. -/
theorem mem_producedGo (response : String → Option (Nat × String))
    (parse : String → List Anchor) :
    ∀ (ps : List Nat) (seen : List String) (r : Record),
      r ∈ producedGo response parse ps seen →
      ∃ a h, a.href = some h ∧ h ≠ "" ∧ r = mkRecord (urljoinOlx h) a
  | [], _, _, hr => absurd hr (List.not_mem_nil _)
  | p :: ps, seen, r, hr => by
    rcases hf : fetch_page (response (next_page_url p)) with _ | html
    · simp only [producedGo, hf] at hr
      cases hr
    · simp only [producedGo, hf] at hr
      by_cases hh : html = ""
      · rw [if_pos hh] at hr
        cases hr
      · rw [if_neg hh] at hr
        by_cases hnew : (extract_listings (parse html)).filter
            (fun x => decide (x.url ∉ seen)) = []
        · rw [if_pos hnew] at hr
          obtain ⟨a, _, h, hhref, hne, heq⟩ := mem_rawRecords hr
          exact ⟨a, h, hhref, hne, heq⟩
        · rw [if_neg hnew] at hr
          rcases List.mem_append.mp hr with hraw | hrec
          · obtain ⟨a, _, h, hhref, hne, heq⟩ := mem_rawRecords hraw
            exact ⟨a, h, hhref, hne, heq⟩
          · exact mem_producedGo response parse ps _ r hrec

/-! ### Claim C1: global first-occurrence-wins URL deduplication -/

/-- Claim C1 (confirmed): within one page, `extract_listings` equals
first-occurrence-wins deduplication by `url` of the raw per-anchor record
stream, and its retained `url`s are pairwise distinct; across pages, the
sequence returned by `scrape` equals first-occurrence-wins deduplication
of the concatenated stream of records produced over the processed pages,
and again no two returned records share a `url`. -/
theorem scrape_first_occurrence_wins
    (response : String → Option (Nat × String)) (parse : String → List Anchor)
    (n : Nat) :
    (∀ cards : List Anchor,
      extract_listings cards = dedupByUrl [] (rawRecords cards) ∧
      ((extract_listings cards).map (fun r => r.url)).Nodup) ∧
    scrape response parse n = dedupByUrl [] (producedFull response parse n) ∧
    ((scrape response parse n).map (fun r => r.url)).Nodup := by
  have hs : scrape response parse n =
      dedupByUrl [] (producedFull response parse n) := by
    rw [scrape, scrapeFull, scrapeGo_rows_eq, List.nil_append]
    rfl
  refine ⟨fun cards => ⟨extractGo_eq_dedup cards [], ?_⟩, hs, ?_⟩
  · rw [extract_listings, extractGo_eq_dedup]
    exact dedupByUrl_urls_nodup _ _
  · rw [hs]
    exact dedupByUrl_urls_nodup _ _

/-! ### Claim C9: determinism of extraction -/

/-- Claim C9 (confirmed): extraction is a pure function of the page body;
two extraction passes over the same body give the same record sequence. -/
theorem extraction_deterministic (parse : String → List Anchor)
    (body : String) (r1 r2 : List Record)
    (h1 : r1 = extract_listings (parse body))
    (h2 : r2 = extract_listings (parse body)) : r1 = r2 :=
  h1.trans h2.symm

/-- Witness for `extraction_deterministic` at a concrete page body. -/
theorem extraction_deterministic_witness :
    extract_listings (parseOnePage "P1") = extract_listings (parseOnePage "P1") :=
  extraction_deterministic parseOnePage "P1" _ _ rfl rfl

/-! ### Pagination control flow (claims C7, C8, C10) -/

/-- A failed (or empty) fetch stops the loop immediately, returning the
accumulator unchanged and logging the stop. -/
theorem scrapeGo_stop_on_fetch_failure (response : String → Option (Nat × String))
    (parse : String → List Anchor) {p : Nat} (ps : List Nat)
    (acc : List Record) (seen : List String)
    (h : fetch_page (response (next_page_url p)) = none) :
    scrapeGo response parse (p :: ps) acc seen =
      ⟨acc, [.fetching p (next_page_url p), .noHtml]⟩ := by
  simp only [scrapeGo, h]

/-- A successful page step continues the loop with the updated state. -/
theorem scrapeGo_step (response : String → Option (Nat × String))
    (parse : String → List Anchor) {p : Nat} {acc acc2 : List Record}
    {seen seen2 : List String}
    (h : stepPage response parse (acc, seen) p = some (acc2, seen2)) :
    ∀ ps, (scrapeGo response parse (p :: ps) acc seen).rows =
      (scrapeGo response parse ps acc2 seen2).rows := by
  intro ps
  rcases hf : fetch_page (response (next_page_url p)) with _ | html
  · simp only [stepPage, hf] at h
    cases h
  · simp only [stepPage, hf] at h
    by_cases hh : html = ""
    · rw [if_pos hh] at h
      cases h
    · rw [if_neg hh] at h
      by_cases hnew : (extract_listings (parse html)).filter
          (fun r => decide (r.url ∉ seen)) = []
      · rw [if_pos hnew] at h
        cases h
      · rw [if_neg hnew] at h
        obtain ⟨ha, hs⟩ := Prod.mk.injEq .. ▸ Option.some_inj.mp h
        simp only [scrapeGo, hf, if_neg hh, if_neg hnew]
        rw [← ha, ← hs]

/-- Iterating successful page steps: the loop over `ps1 ++ rest` reaches
`rest` with the folded state. -/
theorem scrapeGo_foldl (response : String → Option (Nat × String))
    (parse : String → List Anchor) :
    ∀ (ps1 : List Nat) (st st2 : List Record × List String),
      List.foldlM (stepPage response parse) st ps1 = some st2 →
      ∀ rest, (scrapeGo response parse (ps1 ++ rest) st.1 st.2).rows =
        (scrapeGo response parse rest st2.1 st2.2).rows
  | [], st, st2, h, rest => by
    simp only [List.foldlM] at h
    cases h
    rfl
  | p :: ps1, st, st2, h, rest => by
    rcases hstep : stepPage response parse st p with _ | st3
    · rw [List.foldlM_cons, hstep] at h
      cases h
    · rw [List.foldlM_cons, hstep] at h
      rw [List.cons_append, scrapeGo_step response parse
        (show stepPage response parse (st.1, st.2) p = some (st3.1, st3.2) by
          rw [Prod.mk.eta, Prod.mk.eta]
          exact hstep)]
      exact scrapeGo_foldl response parse ps1 st3 st2 h rest

/-- Splitting `1 .. n` at an intermediate page `p`. -/
theorem range_split {p n : Nat} (h1 : 1 ≤ p) (h2 : p ≤ n) :
    List.range' 1 n = List.range' 1 (p - 1) ++ p :: List.range' (p + 1) (n - p) := by
  have e1 : p :: List.range' (p + 1) (n - p) = List.range' p (n - p + 1) := rfl
  rw [e1]
  have e2 : List.range' 1 (p - 1) ++ List.range' (1 + 1 * (p - 1)) (n - p + 1) =
      List.range' 1 (n - p + 1 + (p - 1)) := List.range'_append 1 (p - 1) (n - p + 1) 1
  have e3 : 1 + 1 * (p - 1) = p := by omega
  have e4 : n - p + 1 + (p - 1) = n := by omega
  rw [e3, e4] at e2
  exact e2.symm

/-! ### Claim C7: failures halt pagination, accumulated records survive -/

/-- Claim C7 (confirmed): (i) when the fetch of the next page fails, the
loop halts and returns exactly the accumulated rows; (ii) at top level,
when pages before `p` all step successfully to state `st` and the fetch
of page `p` fails, `scrape` returns exactly `st.1`, the rows accumulated
from the earlier pages; (iii) under every terminal condition the result
extends the accumulator (the accumulated sequence is returned unchanged,
with zero or more new records appended). -/
theorem scrape_halts_preserving_accumulated
    (response : String → Option (Nat × String)) (parse : String → List Anchor) :
    (∀ (p : Nat) (ps : List Nat) (acc : List Record) (seen : List String),
      fetch_page (response (next_page_url p)) = none →
      (scrapeGo response parse (p :: ps) acc seen).rows = acc) ∧
    (∀ (n p : Nat) (st : List Record × List String),
      1 ≤ p → p ≤ n →
      List.foldlM (stepPage response parse) ([], [])
        (List.range' 1 (p - 1)) = some st →
      fetch_page (response (next_page_url p)) = none →
      scrape response parse n = st.1) ∧
    (∀ (pages : List Nat) (acc : List Record) (seen : List String),
      ∃ t, (scrapeGo response parse pages acc seen).rows = acc ++ t) := by
  have stop : ∀ (p : Nat) (ps : List Nat) (acc : List Record)
      (seen : List String), fetch_page (response (next_page_url p)) = none →
      (scrapeGo response parse (p :: ps) acc seen).rows = acc := by
    intro p ps acc seen h
    rw [scrapeGo_stop_on_fetch_failure response parse ps acc seen h]
  refine ⟨stop, ?_, ?_⟩
  · intro n p st h1 h2 hfold hfail
    rw [scrape, scrapeFull, range_split h1 h2,
      scrapeGo_foldl response parse (List.range' 1 (p - 1)) ([], []) st hfold]
    exact stop p _ st.1 st.2 hfail
  · intro pages acc seen
    exact ⟨_, scrapeGo_rows_eq response parse pages acc seen⟩

/-- Witness for `scrape_halts_preserving_accumulated`: page 1 succeeds
with one new listing, page 2 faults, so the run returns exactly the
page-1 records. -/
theorem scrape_halts_preserving_accumulated_witness :
    fetch_page (responseOnePage (next_page_url 2)) = none ∧
    scrape responseOnePage parseOnePage 5 =
      [mkRecord "https://www.olx.in/item/m" anchorMumbai] := by
  refine ⟨rfl, ?_⟩
  exact (scrape_halts_preserving_accumulated responseOnePage parseOnePage).2.1
    5 2 ([mkRecord "https://www.olx.in/item/m" anchorMumbai],
      ["https://www.olx.in/item/m"])
    (by decide) (by decide) (by decide) rfl

/-! ### Claim C8: failed first page means empty result and no file write -/

/-- Claim C8 (confirmed): when the fetch of page 1 fails (e.g. HTTP 404),
the loop stops at page 1 with an empty result, the corresponding stop is
logged, and `save_csv` on the empty sequence logs the no-rows notice and
performs no file write. -/
theorem scrape_page1_failure_no_write
    (response : String → Option (Nat × String)) (parse : String → List Anchor)
    (n : Nat) (path : String)
    (h : fetch_page (response (next_page_url 1)) = none) :
    scrape response parse n = [] ∧
    (1 ≤ n → (scrapeFull response parse n).logs =
      [.fetching 1 BASE_URL, .noHtml]) ∧
    save_csv (scrape response parse n) path = ⟨none, .noRows⟩ := by
  have hfull : 1 ≤ n → scrapeFull response parse n =
      ⟨[], [.fetching 1 BASE_URL, .noHtml]⟩ := by
    intro hn
    rcases n with _ | k
    · omega
    · rw [scrapeFull, show List.range' 1 (k + 1) = 1 :: List.range' 2 k from rfl,
        scrapeGo_stop_on_fetch_failure response parse _ _ _ h]
      rfl
  have hmain : scrape response parse n = [] := by
    rcases n with _ | k
    · rfl
    · rw [scrape, hfull (by omega)]
  exact ⟨hmain, fun hn => by rw [hfull hn], by rw [hmain]; rfl⟩

/-- Witness for `scrape_page1_failure_no_write`: a 404 on every page. -/
theorem scrape_page1_failure_no_write_witness :
    fetch_page (response404 (next_page_url 1)) = none ∧
    scrape response404 parseOnePage 5 = [] ∧
    save_csv (scrape response404 parseOnePage 5) OUTPUT_CSV =
      ⟨none, .noRows⟩ := by
  have h : fetch_page (response404 (next_page_url 1)) = none := rfl
  obtain ⟨h1, _, h3⟩ :=
    scrape_page1_failure_no_write response404 parseOnePage 5 OUTPUT_CSV h
  exact ⟨h, h1, h3⟩

/-! ### Claim C10: an HTTP-200 response with empty body stops the loop -/

/-- Claim C10 (confirmed): a 200 response whose body is the empty string is
treated exactly like a fetch failure: although `fetch_page` succeeds and
returns the (empty) body, the loop logs the stop, halts at that page, and
returns the previously accumulated records — the very same outcome as
with a transport fault or non-200 status at that page. -/
theorem scrape_empty_body_stops
    (response response2 : String → Option (Nat × String))
    (parse : String → List Anchor) (p : Nat) (ps : List Nat)
    (acc : List Record) (seen : List String)
    (h : response (next_page_url p) = some (200, ""))
    (h2 : fetch_page (response2 (next_page_url p)) = none) :
    fetch_page (response (next_page_url p)) = some "" ∧
    scrapeGo response parse (p :: ps) acc seen =
      ⟨acc, [.fetching p (next_page_url p), .noHtml]⟩ ∧
    scrapeGo response parse (p :: ps) acc seen =
      scrapeGo response2 parse (p :: ps) acc seen := by
  have hf : fetch_page (response (next_page_url p)) = some "" := by
    rw [h]
    rfl
  have hstop : scrapeGo response parse (p :: ps) acc seen =
      ⟨acc, [.fetching p (next_page_url p), .noHtml]⟩ := by
    simp only [scrapeGo, hf, ite_true]
  exact ⟨hf, hstop, hstop.trans
    (scrapeGo_stop_on_fetch_failure response2 parse ps acc seen h2).symm⟩

/-- Witness for `scrape_empty_body_stops`: empty-body 200s versus
transport faults give identical outcomes. -/
theorem scrape_empty_body_stops_witness :
    responseEmptyBody (next_page_url 1) = some (200, "") ∧
    scrapeGo responseEmptyBody parseOnePage [1, 2] [] [] =
      ⟨[], [.fetching 1 BASE_URL, .noHtml]⟩ ∧
    scrapeGo responseEmptyBody parseOnePage [1, 2] [] [] =
      scrapeGo responseFault parseOnePage [1, 2] [] [] := by
  obtain ⟨_, hb, hc⟩ := scrape_empty_body_stops responseEmptyBody responseFault
    parseOnePage 1 [2] [] [] rfl rfl
  exact ⟨rfl, by rw [hb]; rfl, hc⟩

/-! ### Regex scan lemmas (claims C3, C4) -/

/-- Everything `takeWhile` keeps satisfies the predicate. -/
theorem takeWhile_all {p : Char → Bool} : ∀ l : List Char,
    (l.takeWhile p).all p = true
  | [] => rfl
  | c :: cs => by
    rw [List.takeWhile_cons]
    by_cases hc : p c
    · rw [if_pos hc, List.all_cons, hc, Bool.true_and]
      exact takeWhile_all cs
    · rw [if_neg hc]
      rfl

/-- A successful `re.search` result is the anchored match at the leftmost
matching start position. -/
theorem reSearch_eq_some (f : List Char → Option (List Char)) :
    ∀ {l m : List Char}, reSearch f l = some m →
      ∃ i, f (l.drop i) = some m ∧ ∀ j < i, f (l.drop j) = none
  | [], m, h => by
    rw [reSearch] at h
    cases h
  | c :: rest, m, h => by
    simp only [reSearch] at h
    rcases hm : f (c :: rest) with _ | m2
    · rw [hm] at h
      obtain ⟨i, hi, hj⟩ := reSearch_eq_some f h
      refine ⟨i + 1, by simpa using hi, ?_⟩
      intro j hlt
      cases j with
      | zero => simpa using hm
      | succ j2 =>
        rw [List.drop_succ_cons]
        exact hj j2 (by omega)
    · rw [hm] at h
      cases h
      exact ⟨0, by simpa using hm, fun j hj => absurd hj (Nat.not_lt_zero j)⟩

/-- A failed `re.search` means the pattern matches at no start position. -/
theorem reSearch_eq_none (f : List Char → Option (List Char))
    (hnil : f [] = none) :
    ∀ {l : List Char}, reSearch f l = none → ∀ i, f (l.drop i) = none
  | [], _, i => by simpa [List.drop_nil] using hnil
  | c :: rest, h, i => by
    simp only [reSearch] at h
    rcases hm : f (c :: rest) with _ | m2
    · rw [hm] at h
      cases i with
      | zero => simpa using hm
      | succ j =>
        rw [List.drop_succ_cons]
        exact reSearch_eq_none f hnil h j
    · rw [hm] at h
      cases h

/-- Any anchored match of the price regex has the shape `₹`, optional
single whitespace, then a nonempty run of digits/commas. -/
theorem priceMatchAt_shape : ∀ {l m : List Char}, priceMatchAt l = some m →
    codePriceShape (String.mk m) = true := by
  intro l m h
  match l with
  | [] => cases h
  | c :: rest =>
    simp only [priceMatchAt] at h
    by_cases hc : c = '₹'
    · rw [if_pos hc] at h
      subst hc
      match rest with
      | [] => cases h
      | d :: rest2 =>
        by_cases hd : pySpace d
        · simp only [if_pos hd] at h
          by_cases hrun : rest2.takeWhile digitOrComma = []
          · rw [if_pos hrun] at h
            cases h
          · rw [if_neg hrun] at h
            cases h
            simp only [codePriceShape, if_pos hd]
            rw [Bool.and_eq_true]
            exact ⟨by simpa [List.isEmpty_iff] using hrun, takeWhile_all rest2⟩
        · simp only [if_neg hd] at h
          by_cases hrun : (d :: rest2).takeWhile digitOrComma = []
          · rw [if_pos hrun] at h
            cases h
          · rw [if_neg hrun] at h
            cases h
            rcases htw : (d :: rest2).takeWhile digitOrComma with _ | ⟨d2, tl2⟩
            · exact absurd htw hrun
            · have hd2 : d2 = d := by
                rw [List.takeWhile_cons] at htw
                by_cases hdc : digitOrComma d
                · rw [if_pos hdc] at htw
                  exact (List.cons.injEq .. ▸ htw).1.symm
                · rw [if_neg hdc] at htw
                  cases htw
              rw [hd2] at htw ⊢
              simp only [codePriceShape, if_neg hd]
              rw [Bool.and_eq_true]
              refine ⟨rfl, ?_⟩
              have hall := takeWhile_all (p := digitOrComma) (d :: rest2)
              rwa [htw] at hall
    · rw [if_neg hc] at h
      cases h

/-- Any capture of the location regex is an ASCII capital followed by a
class-character run of length at least 2. -/
theorem locMatchAt_shape : ∀ {l g : List Char}, locMatchAt l = some g →
    locGroupShape g = true := by
  intro l g h
  rw [locMatchAt] at h
  rcases hcon : connectorAt l with _ | rest
  · rw [hcon] at h
    cases h
  · rw [hcon] at h
    simp only [locTail] at h
    by_cases hws : rest.takeWhile pySpace = []
    · rw [if_pos hws] at h
      cases h
    · simp only [if_neg hws] at h
      rcases hdrop : rest.drop (rest.takeWhile pySpace).length with _ | ⟨c, tl⟩
      · rw [hdrop] at h
        cases h
      · rw [hdrop] at h
        have h2 : (if c.isUpper then
            (if (tl.takeWhile locClassChar).length < 2 then none
             else some (c :: tl.takeWhile locClassChar)) else none) = some g := h
        by_cases hup : c.isUpper
        · rw [if_pos hup] at h2
          by_cases hlen : (tl.takeWhile locClassChar).length < 2
          · rw [if_pos hlen] at h2
            cases h2
          · rw [if_neg hlen] at h2
            cases h2
            simp only [locGroupShape, hup, Bool.true_and, Bool.and_eq_true]
            exact ⟨by simpa using Nat.le_of_not_lt hlen, takeWhile_all tl⟩
        · rw [if_neg hup] at h2
          cases h2

/-! ### Claim C3: price guess format and leftmost match -/

/-- Claim C3, counterexample: for context text `"z ₹,, w"` the code produces
`price_guess = some "₹,,"`, which does not match the claimed pattern
"`₹`, optional space, digit groups with optional comma separators"; and
no substring of the context matches that pattern at all (checked over
every start index and length), yet `price_guess` is present rather than
absent. -/
theorem price_guess_pattern_counterexample :
    (extract_listings [anchorCommas]).map (fun r => r.price_guess) =
      [some "₹,,"] ∧
    specPriceShape "₹,," = false ∧
    ((List.range 8).all (fun i => (List.range 9).all (fun j =>
      !specPriceShape
        (String.mk ((("z ₹,, w" : String).data.drop i).take j))))) = true := by
  exact ⟨by decide, by decide, by decide⟩

/-- Claim C3, amended: the pattern is the code's `₹\s?[\d,]+` — `₹`, an
optional single whitespace, then a nonempty run of digits *and commas*
(which also admits bare or trailing commas).  When present, `price_guess`
has exactly this shape and is the leftmost (greedy) such match of the
record's context text; it is absent precisely when the pattern matches at
no position; and every extracted record's `price_guess` is
`price_search` of its anchor's context text. -/
theorem price_guess_first_match (s p : String) (cards : List Anchor)
    (r : Record) :
    (price_search s = some p →
      codePriceShape p = true ∧
      ∃ i, priceMatchAt (s.data.drop i) = some p.data ∧
        ∀ j < i, priceMatchAt (s.data.drop j) = none) ∧
    (price_search s = none → ∀ i, priceMatchAt (s.data.drop i) = none) ∧
    (r ∈ extract_listings cards →
      ∃ a ∈ cards, r.price_guess = price_search (contextText a)) := by
  refine ⟨?_, ?_, ?_⟩
  · intro hp
    rw [price_search] at hp
    rcases hsr : reSearch priceMatchAt s.data with _ | m
    · rw [hsr] at hp
      cases hp
    · rw [hsr] at hp
      simp only [Option.map] at hp
      cases hp
      obtain ⟨i, hi, hj⟩ := reSearch_eq_some priceMatchAt hsr
      exact ⟨priceMatchAt_shape hi, i, hi, hj⟩
  · intro hp i
    rw [price_search] at hp
    rcases hsr : reSearch priceMatchAt s.data with _ | m
    · exact reSearch_eq_none priceMatchAt rfl hsr i
    · rw [hsr] at hp
      simp only [Option.map] at hp
      cases hp
  · intro hr
    obtain ⟨a, ha, _, _, _, heq⟩ := mem_extract_listings hr
    exact ⟨a, ha, by rw [heq, mkRecord_price]⟩

/-- Witness for `price_guess_first_match`: the first of two candidate
matches is returned, with the code shape. -/
theorem price_guess_first_match_witness :
    price_search "a ₹ 7,00 b ₹ 9" = some "₹ 7,00" ∧
    codePriceShape "₹ 7,00" = true ∧
    (∃ i, priceMatchAt (("a ₹ 7,00 b ₹ 9" : String).data.drop i) =
        some ("₹ 7,00" : String).data ∧
      ∀ j < i, priceMatchAt (("a ₹ 7,00 b ₹ 9" : String).data.drop j) = none) := by
  have h := (price_guess_first_match "a ₹ 7,00 b ₹ 9" "₹ 7,00" []
    (mkRecord "u" anchorMumbai)).1 (by decide)
  exact ⟨by decide, h.1, h.2⟩

/-! ### Claim C4: location guess connector and capture -/

/-- Claim C4, counterexample: the code's connector alternation `(?:in|at|•)`
is not word-bounded.  In the context `"Coin Alley market"` it matches the
`in` inside the word `Coin`, so the code yields
`location_guess = some "Alley market"`, while the claimed pattern — the
standalone *word* `in`/`at`, or a bullet — matches nowhere in that text,
i.e. the claim would require absence. -/
theorem location_guess_word_counterexample :
    (extract_listings [anchorCoin]).map (fun r => r.location_guess) =
      [some "Alley market"] ∧
    specLocationSearch "Coin Alley market" = none := by
  exact ⟨by decide, by decide⟩

/-- Claim C4, amended: the connector is the *substring* `in` or `at` (not
required to be a standalone word) or the bullet `•`.  When present,
`location_guess` is the stripped capture (an ASCII capital followed by a
run of letters/spaces/periods/commas/hyphens of length at least 2) of the
leftmost match in the record's context text, the leading connector and
whitespace excluded; it is absent precisely when the pattern matches
nowhere; every record's `location_guess` is `location_search` of its
anchor's context; and on Scenario D's context text the captured value is
`"Mumbai"` (not `"Mumbai ₹ 1,200"`). -/
theorem location_guess_first_match (s v : String) (cards : List Anchor)
    (r : Record) :
    (location_search s = some v →
      ∃ i g, locMatchAt (s.data.drop i) = some g ∧
        (∀ j < i, locMatchAt (s.data.drop j) = none) ∧
        locGroupShape g = true ∧ v = String.mk (stripChars g)) ∧
    (location_search s = none → ∀ i, locMatchAt (s.data.drop i) = none) ∧
    (r ∈ extract_listings cards →
      ∃ a ∈ cards, r.location_guess = location_search (contextText a)) ∧
    location_search "Used car cover for sale in Mumbai ₹ 1,200" =
      some "Mumbai" := by
  refine ⟨?_, ?_, ?_, by decide⟩
  · intro hv
    rw [location_search] at hv
    rcases hsr : reSearch locMatchAt s.data with _ | g
    · rw [hsr] at hv
      cases hv
    · rw [hsr] at hv
      simp only [Option.map] at hv
      cases hv
      obtain ⟨i, hi, hj⟩ := reSearch_eq_some locMatchAt hsr
      exact ⟨i, g, hi, hj, locMatchAt_shape hi, rfl⟩
  · intro hv i
    rw [location_search] at hv
    rcases hsr : reSearch locMatchAt s.data with _ | g
    · exact reSearch_eq_none locMatchAt rfl hsr i
    · rw [hsr] at hv
      simp only [Option.map] at hv
      cases hv
  · intro hr
    obtain ⟨a, ha, _, _, _, heq⟩ := mem_extract_listings hr
    exact ⟨a, ha, by rw [heq, mkRecord_location]⟩

/-- Witness for `location_guess_first_match` at a concrete context. -/
theorem location_guess_first_match_witness :
    location_search "xy at Delhi" = some "Delhi" ∧
    (∃ i g, locMatchAt (("xy at Delhi" : String).data.drop i) = some g ∧
      (∀ j < i, locMatchAt (("xy at Delhi" : String).data.drop j) = none) ∧
      locGroupShape g = true ∧ ("Delhi" : String) = String.mk (stripChars g)) := by
  have h := (location_guess_first_match "xy at Delhi" "Delhi" []
    (mkRecord "u" anchorMumbai)).1 (by decide)
  exact ⟨by decide, h⟩

/-! ### URL absoluteness (claim C2) -/

/-- A string of the form `https:...` parses a scheme. -/
theorem isAbsoluteUrl_https (xs : List Char) :
    isAbsoluteUrl (String.mk ("https".data ++ ':' :: xs)) = true := rfl

/-- When the scheme component is `https`, the rebuilt URL starts with
`https:`. -/
theorem urlunparseHttps_form (p : UrlParts) (hs : p.scheme = "https".data) :
    ∃ xs, urlunparseHttps p = "https".data ++ ':' :: xs := by
  have hassoc : ∀ (A B : List Char),
      ("https".data ++ ':' :: A) ++ B = "https".data ++ ':' :: (A ++ B) := by
    intro A B
    simp
  simp only [urlunparseHttps, hs]
  rw [if_pos (show ("https".data : List Char) ≠ [] by decide)]
  by_cases hq : p.query ≠ []
  · rw [if_pos hq]
    by_cases hf2 : p.fragment ≠ []
    · rw [if_pos hf2, hassoc, hassoc]
      exact ⟨_, rfl⟩
    · rw [if_neg hf2, hassoc]
      exact ⟨_, rfl⟩
  · rw [if_neg hq]
    by_cases hf2 : p.fragment ≠ []
    · rw [if_pos hf2, hassoc]
      exact ⟨_, rfl⟩
    · rw [if_neg hf2]
      exact ⟨_, rfl⟩

/-- The rebuilt URL is nonempty and syntactically absolute. -/
theorem urlunparseHttps_absolute (p : UrlParts) (hs : p.scheme = "https".data) :
    String.mk (urlunparseHttps p) ≠ "" ∧
    isAbsoluteUrl (String.mk (urlunparseHttps p)) = true := by
  obtain ⟨xs, hx⟩ := urlunparseHttps_form p hs
  rw [hx]
  constructor
  · intro hc
    have hd : ("https".data ++ ':' :: xs) = "".data := congrArg String.data hc
    simp at hd
  · exact isAbsoluteUrl_https xs

/-- `urljoin` either returns the href verbatim (foreign-scheme early
return) or rebuilds a URL whose scheme component is `https`. -/
theorem urljoinOlx_eq_form (h : String) (hne : h ≠ "") :
    urljoinOlx h = h ∨
    ∃ p : UrlParts, p.scheme = "https".data ∧
      urljoinOlx h = String.mk (urlunparseHttps p) := by
  by_cases hearly : String.mk (urlparseHttps h.data).scheme ≠ "https" ∨
      ¬ usesRelative.contains (String.mk (urlparseHttps h.data).scheme)
  · left
    simp only [urljoinOlx, if_neg hne, if_pos hearly]
  · have hs : (urlparseHttps h.data).scheme = "https".data := by
      rcases not_or.mp hearly with ⟨h1, _⟩
      exact congrArg String.data (not_not.mp h1)
    right
    by_cases hn : (urlparseHttps h.data).netloc ≠ []
    · exact ⟨urlparseHttps h.data, hs,
        by simp only [urljoinOlx, if_neg hne, if_neg hearly, if_pos hn]⟩
    · by_cases hpp : (urlparseHttps h.data).path = [] ∧
          (urlparseHttps h.data).params = []
      · exact ⟨⟨(urlparseHttps h.data).scheme, "www.olx.in".data, [], [],
          (urlparseHttps h.data).query, (urlparseHttps h.data).fragment⟩, hs,
          by simp only [urljoinOlx, if_neg hne, if_neg hearly, if_neg hn,
            if_pos hpp]⟩
      · exact ⟨⟨(urlparseHttps h.data).scheme, "www.olx.in".data,
          resolveRelativePath (urlparseHttps h.data).path,
          (urlparseHttps h.data).params, (urlparseHttps h.data).query,
          (urlparseHttps h.data).fragment⟩, hs,
          by simp only [urljoinOlx, if_neg hne, if_neg hearly, if_neg hn,
            if_neg hpp]⟩

/-- Core of claim C2: the resolved URL of a nonempty href is nonempty, and
is either syntactically absolute or the verbatim href. -/
theorem urljoinOlx_absolute_or_verbatim (h : String) (hne : h ≠ "") :
    urljoinOlx h ≠ "" ∧
    (isAbsoluteUrl (urljoinOlx h) = true ∨ urljoinOlx h = h) := by
  rcases urljoinOlx_eq_form h hne with heq | ⟨p, hs, heq⟩
  · rw [heq]
    exact ⟨hne, Or.inr rfl⟩
  · rw [heq]
    have habs := urlunparseHttps_absolute p hs
    exact ⟨habs.1, Or.inl habs.2⟩

/-! ### Claim C2: every record has a nonempty resolved URL -/

/-- Claim C2, counterexample: an anchor with `href = " mailto:x"` (legal for
the `a[data-aut-id="itemTitle"]` selector, which does not constrain the
href) produces a record whose `url` is the verbatim string `" mailto:x"`:
`urljoin` parses the scheme `mailto` after whitespace-stripping and
returns the href unchanged, leading whitespace included, so the stored
url is not absolute. -/
theorem record_url_not_absolute_counterexample :
    (extract_listings [anchorMailto]).map (fun r => r.url) = [" mailto:x"] ∧
    isAbsoluteUrl " mailto:x" = false := by
  exact ⟨by decide, by decide⟩

/-- Claim C2, amended: every record's `url` is present and nonempty and is
exactly `urljoin` of the base origin and the anchor's nonempty `href`
(anchors without an href, or with an empty one, produce no record).  The
`url` is syntactically absolute whenever resolution actually combines
with the base; an href carrying a foreign (non-`https`) scheme is
returned verbatim and may fail to be absolute.  The same holds for every
record in `scrape`'s result. -/
theorem record_url_resolved (cards : List Anchor) (r r2 : Record)
    (response : String → Option (Nat × String)) (parse : String → List Anchor)
    (n : Nat) :
    (r ∈ extract_listings cards →
      r.url ≠ "" ∧
      ∃ a ∈ cards, ∃ h, a.href = some h ∧ h ≠ "" ∧ r.url = urljoinOlx h ∧
        (isAbsoluteUrl r.url = true ∨ r.url = h)) ∧
    (r2 ∈ scrape response parse n →
      r2.url ≠ "" ∧
      (isAbsoluteUrl r2.url = true ∨ ∃ h, r2.url = urljoinOlx h ∧ r2.url = h)) := by
  constructor
  · intro hr
    obtain ⟨a, ha, h, hhref, hne, heq⟩ := mem_extract_listings hr
    have hurl : r.url = urljoinOlx h := by rw [heq, mkRecord_url]
    have habs := urljoinOlx_absolute_or_verbatim h hne
    rw [← hurl] at habs
    exact ⟨habs.1, a, ha, h, hhref, hne, hurl, habs.2⟩
  · intro hr
    have hrows : scrape response parse n =
        dedupByUrl [] (producedFull response parse n) := by
      rw [scrape, scrapeFull, scrapeGo_rows_eq, List.nil_append]
      rfl
    rw [hrows] at hr
    obtain ⟨a, h, hhref, hne, heq⟩ :=
      mem_producedGo response parse _ _ r2 (mem_dedupByUrl hr)
    have hurl : r2.url = urljoinOlx h := by rw [heq, mkRecord_url]
    have habs := urljoinOlx_absolute_or_verbatim h hne
    rw [← hurl] at habs
    rcases habs.2 with habs2 | habs2
    · exact ⟨habs.1, Or.inl habs2⟩
    · exact ⟨habs.1, Or.inr ⟨h, hurl, habs2⟩⟩

/-- Witness for `record_url_resolved` on a concrete page. -/
theorem record_url_resolved_witness :
    (mkRecord "https://www.olx.in/item/m" anchorMumbai).url ≠ "" ∧
    ∃ a ∈ [anchorMumbai], ∃ h, a.href = some h ∧ h ≠ "" ∧
      (mkRecord "https://www.olx.in/item/m" anchorMumbai).url = urljoinOlx h ∧
      (isAbsoluteUrl (mkRecord "https://www.olx.in/item/m" anchorMumbai).url =
          true ∨
        (mkRecord "https://www.olx.in/item/m" anchorMumbai).url = h) :=
  (record_url_resolved [anchorMumbai] (mkRecord "https://www.olx.in/item/m"
      anchorMumbai) (mkRecord "u" anchorMumbai) responseFault parseOnePage 0).1
    (by decide)

/-! ### Claim C5: the ancestor walk and the context text -/

/-- Claim C5, counterexample: an anchor with no reachable ancestor does not
get absent context fields.  The walk stays at the anchor itself, the
context text is the anchor's own text, and snippet, price and location
are all present for this record, where the claim requires all three to be
absent. -/
theorem context_orphan_counterexample :
    anchorOrphan.ancestorTexts = [] ∧
    (extract_listings [anchorOrphan]).map
      (fun r => (r.snippet, r.price_guess, r.location_guess)) =
      [(some "Nice cover in Pune ₹ 450", some "₹ 450", some "Pune")] := by
  exact ⟨rfl, by decide⟩

/-- Claim C5, amended: the context text is the text of the element reached
by walking up through at most 3 parent links, stopping early when no
parent remains — the ancestor at depth `min 3 (number of ancestors)` when
at least one ancestor exists, and the anchor's *own* text when none does
(the fields are then derived from that text, absent only when it is
empty).  Snippet, price guess and location guess of every record are all
computed from this one context text. -/
theorem context_walk (a : Anchor) (cards : List Anchor) (r : Record) :
    (a.ancestorTexts = [] → contextText a = a.text) ∧
    (a.ancestorTexts ≠ [] →
      contextText a =
        a.ancestorTexts.getD (min 3 a.ancestorTexts.length - 1) "") ∧
    (r ∈ extract_listings cards → ∃ a2 ∈ cards,
      r.snippet = (if contextText a2 = "" then none
        else some (String.mk ((contextText a2).data.take 300))) ∧
      r.price_guess = price_search (contextText a2) ∧
      r.location_guess = location_search (contextText a2)) := by
  refine ⟨?_, ?_, ?_⟩
  · intro hnil
    rw [contextText, hnil]
    rfl
  · intro hne
    rcases hl : a.ancestorTexts with _ | ⟨t1, ts⟩
    · exact absurd hl hne
    · rcases ts with _ | ⟨t2, ts2⟩
      · rw [contextText, hl]
        rfl
      · rcases ts2 with _ | ⟨t3, ts3⟩
        · rw [contextText, hl]
          rfl
        · rw [contextText, hl]
          have hmin : min 3 (t1 :: t2 :: t3 :: ts3).length - 1 = 2 := by
            simp only [List.length_cons]
            omega
          rw [hmin]
          rfl
  · intro hr
    obtain ⟨a2, ha2, _, _, _, heq⟩ := mem_extract_listings hr
    exact ⟨a2, ha2, by rw [heq, mkRecord_snippet], by rw [heq, mkRecord_price],
      by rw [heq, mkRecord_location]⟩

/-- Witness for `context_walk` at concrete anchors. -/
theorem context_walk_witness :
    contextText anchorOrphan = anchorOrphan.text ∧
    contextText anchorMumbai =
      anchorMumbai.ancestorTexts.getD
        (min 3 anchorMumbai.ancestorTexts.length - 1) "" := by
  exact ⟨(context_walk anchorOrphan [] (mkRecord "u" anchorMumbai)).1 rfl,
    (context_walk anchorMumbai [] (mkRecord "u" anchorMumbai)).2.1 (by decide)⟩

/-! ### Claim C6: snippet truncation -/

/-- Claim C6 (confirmed): each record comes from an anchor such that, when
the snippet is present, it has length at most 300 and equals the first
300 characters of the ancestor context text; and when that context text
is absent (falsy, i.e. empty), the snippet is absent. -/
theorem snippet_truncation (cards : List Anchor) (r : Record)
    (hr : r ∈ extract_listings cards) :
    ∃ a ∈ cards,
      (∀ s, r.snippet = some s →
        s.length ≤ 300 ∧ s.data = (contextText a).data.take 300) ∧
      (contextText a = "" → r.snippet = none) := by
  obtain ⟨a, ha, _, _, _, heq⟩ := mem_extract_listings hr
  refine ⟨a, ha, ?_, ?_⟩
  · intro s hs
    rw [heq, mkRecord_snippet] at hs
    by_cases hc : contextText a = ""
    · rw [if_pos hc] at hs
      cases hs
    · rw [if_neg hc] at hs
      have hsv : s = String.mk ((contextText a).data.take 300) :=
        (Option.some_inj.mp hs).symm
      subst hsv
      refine ⟨?_, rfl⟩
      have hlen : (String.mk ((contextText a).data.take 300)).length =
          ((contextText a).data.take 300).length := rfl
      rw [hlen, List.length_take]
      exact Nat.min_le_left _ _
  · intro hc
    rw [heq, mkRecord_snippet, if_pos hc]

/-- Witness for `snippet_truncation` at a concrete extraction. -/
theorem snippet_truncation_witness :
    ∃ a ∈ [anchorMumbai],
      (∀ s, (mkRecord "https://www.olx.in/item/m" anchorMumbai).snippet =
          some s →
        s.length ≤ 300 ∧ s.data = (contextText a).data.take 300) ∧
      (contextText a = "" →
        (mkRecord "https://www.olx.in/item/m" anchorMumbai).snippet = none) :=
  snippet_truncation [anchorMumbai] _ (by decide)

end Olx
